import Mathlib

/-!
Verification of the Python-Photo-Filter repository: a shallow embedding of
`history.py` (the undo/redo history stack) and `filters.py` (the filter
catalog), with theorems settling the specification's claims about them.

Python lists are modelled as `List`, Python integers as `Int`/`Nat`, and
floating-point kernel weights as `Rat`.  Python list indexing (which accepts
negative indices and raises `IndexError` out of range) is modelled by `pyGet`
returning `Option`; a `none` result models a raised `IndexError`.
-/

namespace PhotoFilter

/-- Python list indexing `l[i]`: nonnegative `i` indexes from the front,
negative `i` indexes from the back (`l[-1]` is the last element), and an
out-of-range index raises `IndexError`, modelled as `none`. -/
def pyGet {α : Type} (l : List α) (i : Int) : Option α :=
  if 0 ≤ i then l.get? i.toNat
  else if -i ≤ (l.length : Int) then l.get? ((l.length : Int) + i).toNat
  else none

/-- Python slice `l[:k]`: for nonnegative `k` keeps the first `k` elements
(clamped to the length); a negative `k` counts from the back.  Never errors. -/
def pySliceTo {α : Type} (l : List α) (k : Int) : List α :=
  if 0 ≤ k then l.take k.toNat
  else l.take ((l.length : Int) + k).toNat

/-- State of `History` from `history.py`: the list of stored image states and
the cursor `index` (`-1` when empty, as set by `__init__`). -/
structure History (α : Type) where
  history : List α
  index : Int
deriving DecidableEq, Repr

namespace History

/-- Initial state built by `History.__init__`: empty list, index `-1`. -/
def init {α : Type} : History α := ⟨[], -1⟩

/-- Embedding of `History.add_state`: truncate the forward history with the
slice `history[:index + 1]`, append the new image, and advance the index. -/
def add_state {α : Type} (s : History α) (img : α) : History α :=
  ⟨pySliceTo s.history (s.index + 1) ++ [img], s.index + 1⟩

/-- Embedding of `History.can_undo`: `index > 0`. -/
def can_undo {α : Type} (s : History α) : Bool :=
  decide (0 < s.index)

/-- Embedding of `History.can_redo`: `index < len(history) - 1`. -/
def can_redo {α : Type} (s : History α) : Bool :=
  decide (s.index < (s.history.length : Int) - 1)

/-- Embedding of `History.undo`.  The first component is the returned image
(`none` models the `IndexError` raised by `self.history[self.index]` when the
index is out of range); the second component is the state after the call.  In
the `can_undo` branch the index is decremented before the list access, so the
decrement survives even on an erroring access. -/
def undo {α : Type} (s : History α) : Option α × History α :=
  if 0 < s.index then
    (pyGet s.history (s.index - 1), ⟨s.history, s.index - 1⟩)
  else
    (pyGet s.history s.index, s)

/-- Embedding of `History.redo`: if `can_redo`, increment the index; in either
case return `history[index]` (erroring as in `undo` when out of range). -/
def redo {α : Type} (s : History α) : Option α × History α :=
  if s.index < (s.history.length : Int) - 1 then
    (pyGet s.history (s.index + 1), ⟨s.history, s.index + 1⟩)
  else
    (pyGet s.history s.index, s)

/-- Embedding of `History.clear`: empty the list and reset the index to `-1`. -/
def clear {α : Type} (_ : History α) : History α := ⟨[], -1⟩

/-- Specified invariant of the history stack: `-1 <= cursor < entries.length`. -/
def Inv {α : Type} (s : History α) : Prop :=
  -1 ≤ s.index ∧ s.index < (s.history.length : Int)

instance {α : Type} (s : History α) : Decidable (Inv s) := by
  unfold Inv; infer_instance

/-- States reachable from the initial state by the four mutating operations. -/
inductive Reachable {α : Type} : History α → Prop
  | init : Reachable init
  | add_state {s : History α} (img : α) : Reachable s → Reachable (add_state s img)
  | undo {s : History α} : Reachable s → Reachable (undo s).2
  | redo {s : History α} : Reachable s → Reachable (redo s).2
  | clear {s : History α} : Reachable s → Reachable (clear s)

end History

/-- In-memory RGB raster: width, height, and flat row-major channel data of
intended length `width * height * 3` (pixel `(x, y)` channel `c` lives at flat
index `(y * width + x) * 3 + c`). -/
structure Image where
  width : Nat
  height : Nat
  data : List Nat
deriving DecidableEq, Repr

/-- Well-formedness of a buffer: the data has exactly `width * height * 3`
entries and every channel value is an 8-bit byte. -/
def Image.Valid (img : Image) : Prop :=
  img.data.length = img.width * img.height * 3 ∧ ∀ v ∈ img.data, v < 256

instance (img : Image) : Decidable img.Valid := by
  unfold Image.Valid; infer_instance

/-- Channel value of pixel `p` (in scanline order), channel `c`. -/
def Image.channel (img : Image) (p c : Nat) : Nat :=
  img.data.getD (3 * p + c) 0

/-- Channel value at coordinates `(x, y)`, channel `c`. -/
def Image.channelAt (img : Image) (x y c : Nat) : Nat :=
  img.data.getD ((y * img.width + x) * 3 + c) 0

/-- Clamp an integer into the byte range `[0, 255]` (the `np.clip(_, 0, 255)`
and PIL output clamping used after every transform). -/
def clampByte (z : Int) : Nat := (max 0 (min z 255)).toNat

/-- Application of a 256-entry lookup table to every channel value, the
`Image.point` operation PIL uses for `solarize`, `posterize` and `invert`. -/
def pointOp (lut : List Nat) (img : Image) : Image :=
  ⟨img.width, img.height, img.data.map fun v => lut.getD v 0⟩

/-- Modelled from the spec: `PIL.ImageOps.solarize` (called by
`Filters.solarize`, not part of src/) builds the lookup table
`[i if i < threshold else 255 - i for i in range(256)]` and applies it to
every channel — "invert channel values that are >= threshold, leave others
unchanged". -/
def solarizeLut (threshold : Int) : List Nat :=
  (List.range 256).map fun i =>
    if Int.ofNat i < threshold then i else 255 - i

/-- Modelled from the spec: `PIL.ImageOps.posterize` (called by
`Filters.posterize`, not part of src/) applies the lookup table
`[i & ~(2 ** (8 - bits) - 1) for i in range(256)]` — "keep the top `bits` bits
of each channel, zeroing the rest".  For `i < 256` the Python bitwise-and with
the complemented low-bit mask equals `i &&& (256 - 2 ^ (8 - bits))`. -/
def posterizeLut (bits : Nat) : List Nat :=
  (List.range 256).map fun i => i &&& (256 - 2 ^ (8 - bits))

/-- Modelled from the spec: `PIL.ImageOps.invert` (called by
`Filters.invert_colors`, not part of src/) applies the lookup table
`[255 - i for i in range(256)]` — "`255 - value` per channel". -/
def invertLut : List Nat :=
  (List.range 256).map fun i => 255 - i

/-- Modelled from the spec: the ITU-R 601-2 luminance transform
`L = R * 299/1000 + G * 587/1000 + B * 114/1000` used by PIL `convert("L")`
(not part of src/) — the "standard RGB→gray weighting". -/
def luminance (r g b : Nat) : Nat :=
  (299 * r + 587 * g + 114 * b) / 1000

/-- Convolution kernel as built by `ImageFilter.Kernel`: square size, the flat
weight list, the normalization scale and the offset. -/
structure Kernel where
  size : Nat
  weights : List Rat
  scale : Rat
  offset : Rat
deriving DecidableEq, Repr

/-- Python `x or d` on numbers: `d` when `x` is falsy (zero), else `x`. -/
def pyOrQ (x d : Rat) : Rat := if x = 0 then d else x

/-- Edge-clamped coordinate lookup: replicate the nearest in-bounds pixel. -/
def clampCoord (z : Int) (n : Nat) : Nat :=
  (max 0 (min z ((n : Int) - 1))).toNat

/-- Round a rational to the nearest integer (half-up). -/
def ratRound (q : Rat) : Int := Rat.floor (q + 1 / 2)

/-- Modelled from the spec: the generic convolution engine (section 4.2, the
PIL filter machinery is not part of src/).  Each output channel is the
edge-clamped weighted neighborhood sum, divided by `scale` (or `1` if `scale`
is `0`), plus `offset`, rounded and clamped to `[0, 255]`.  Output dimensions
equal input dimensions. -/
def convolve (img : Image) (k : Kernel) : Image :=
  let w := img.width
  let h := img.height
  let half := k.size / 2
  let scaleUsed : Rat := if k.scale = 0 then 1 else k.scale
  ⟨w, h, (List.range (w * h * 3)).map fun idx =>
    let c := idx % 3
    let p := idx / 3
    let x := p % w
    let y := p / w
    let acc : Rat := ((List.range (k.size * k.size)).map fun kidx =>
      let sx := clampCoord ((x : Int) + (kidx % k.size : Nat) - (half : Int)) w
      let sy := clampCoord ((y : Int) + (kidx / k.size : Nat) - (half : Int)) h
      k.weights.getD kidx 0 * (img.channelAt sx sy c : Rat)).sum
    clampByte (ratRound (acc / scaleUsed + k.offset))⟩

/-- Insert into a sorted list (helper for the median rank filter). -/
def insertNat (x : Nat) : List Nat → List Nat
  | [] => [x]
  | y :: ys => if x ≤ y then x :: y :: ys else y :: insertNat x ys

/-- Insertion sort (helper for the median rank filter). -/
def sortNat (l : List Nat) : List Nat := l.foldr insertNat []

/-- Median of a value list: middle element of the sorted list. -/
def medianNat (l : List Nat) : Nat := (sortNat l).getD (l.length / 2) 0

namespace Filters

/-- Embedding of `Filters.classic_black_and_white`: grayscale luminance
replicated into all three channels. -/
def classic_black_and_white (img : Image) : Image :=
  ⟨img.width, img.height, (List.range (img.width * img.height * 3)).map fun idx =>
    let p := idx / 3
    luminance (img.channel p 0) (img.channel p 1) (img.channel p 2)⟩

/-- Per-pixel grayscale values of an image, in scanline order. -/
def grayValues (img : Image) : List Nat :=
  (List.range (img.width * img.height)).map fun p =>
    luminance (img.channel p 0) (img.channel p 1) (img.channel p 2)

/-- Embedding of `Filters.high_contrast_black_and_white`.  Modelled from the
spec for the PIL `autocontrast` part (not in src/): grayscale, then remap the
observed `[min, max]` luminance range linearly to `[0, 255]`. -/
def high_contrast_black_and_white (img : Image) : Image :=
  let g := grayValues img
  let lo := g.foldr min 255
  let hi := g.foldr max 0
  ⟨img.width, img.height, (List.range (img.width * img.height * 3)).map fun idx =>
    let v := g.getD (idx / 3) 0
    if hi ≤ lo then v else (v - lo) * 255 / (hi - lo)⟩

/-- Embedding of `Filters.vintage_filter`.  Modelled from the spec for the PIL
`colorize` part (not in src/): grayscale, then per channel interpolate
linearly from dark brown `(0x70, 0x42, 0x14)` at `0` to tan
`(0xC0, 0xA0, 0x80)` at `255`. -/
def vintage_filter (img : Image) : Image :=
  let black : Nat → Nat := fun c => [0x70, 0x42, 0x14].getD c 0
  let white : Nat → Nat := fun c => [0xC0, 0xA0, 0x80].getD c 0
  let g := grayValues img
  ⟨img.width, img.height, (List.range (img.width * img.height * 3)).map fun idx =>
    let c := idx % 3
    let v := g.getD (idx / 3) 0
    black c + (white c - black c) * v / 255⟩

/-- Sepia mixing coefficients `tr`, `tg`, `tb` from `Filters.sepia_filter`. -/
def sepiaCoeff (c j : Nat) : Rat :=
  [[(393 : Rat)/1000, 769/1000, 189/1000],
   [349/1000, 686/1000, 168/1000],
   [272/1000, 534/1000, 131/1000]].getD c [] |>.getD j 0

/-- Embedding of `Filters.sepia_filter`: each output channel is the 3x3 color
mix of the input channels, clipped to `[0, 255]` by `np.clip` and truncated to
an integer by the `uint8` cast. -/
def sepia_filter (img : Image) : Image :=
  ⟨img.width, img.height, (List.range (img.width * img.height * 3)).map fun idx =>
    let c := idx % 3
    let p := idx / 3
    let q : Rat := sepiaCoeff c 0 * (img.channel p 0 : Rat)
      + sepiaCoeff c 1 * (img.channel p 1 : Rat)
      + sepiaCoeff c 2 * (img.channel p 2 : Rat)
    (Rat.floor (max 0 (min q 255))).toNat⟩

/-- Embedding of `Filters.custom_filter`: build an `ImageFilter.Kernel` with
`scale = sum(kernel_elements) or 1` and `offset = 0`, and convolve. -/
def customKernel (kernel_elements : List Rat) (kernel_size : Nat) : Kernel :=
  ⟨kernel_size, kernel_elements, pyOrQ kernel_elements.sum 1, 0⟩

/-- Embedding of `Filters.custom_filter` applied to an image. -/
def custom_filter (img : Image) (kernel_elements : List Rat) (kernel_size : Nat) : Image :=
  convolve img (customKernel kernel_elements kernel_size)

/-- Modelled from the spec: a radius-derived discretized Gaussian profile
(binomial weights) for `Filters.gaussian_blur`, whose PIL kernel generation is
not part of src/.  Size is `2 * ceil(radius) + 1`; scale defaults to the sum
of the weights. -/
def gaussianKernel (radius : Rat) : Kernel :=
  let n := (max 0 (-(Rat.floor (-radius)))).toNat
  let size := 2 * n + 1
  let ws := (List.range (size * size)).map fun kidx =>
    (((size - 1).choose (kidx % size) * (size - 1).choose (kidx / size) : Nat) : Rat)
  ⟨size, ws, pyOrQ ws.sum 1, 0⟩

/-- Modelled from the spec: a radius-derived box profile (all-ones weights)
for `Filters.box_blur`, whose PIL kernel generation is not part of src/. -/
def boxKernel (radius : Rat) : Kernel :=
  let n := (max 0 (-(Rat.floor (-radius)))).toNat
  let size := 2 * n + 1
  let ws := (List.range (size * size)).map fun _ => (1 : Rat)
  ⟨size, ws, pyOrQ ws.sum 1, 0⟩

/-- Embedding of `Filters.gaussian_blur`. -/
def gaussian_blur (img : Image) (radius : Rat) : Image :=
  convolve img (gaussianKernel radius)

/-- Embedding of `Filters.box_blur`. -/
def box_blur (img : Image) (radius : Rat) : Image :=
  convolve img (boxKernel radius)

/-- Embedding of `Filters.add_noise`: add to every channel value the sampled
noise term for its flat index, then clip to `[0, 255]`.  The sampler
`np.random.randint(-amount, amount + 1, shape)` is modelled by the explicit
stream `noise`, whose values range over `[-amount, amount]`. -/
def add_noise (img : Image) (amount : Int) (noise : Nat → Int) : Image :=
  let _ := amount
  ⟨img.width, img.height, (List.range img.data.length).map fun i =>
    clampByte ((img.data.getD i 0 : Int) + noise i)⟩

/-- Modelled from the spec: PIL's named kernel constant `SHARPEN`. -/
def kernelSHARPEN : Kernel := ⟨3, [-2, -2, -2, -2, 32, -2, -2, -2, -2], 16, 0⟩

/-- Modelled from the spec: PIL's named kernel constant `DETAIL`. -/
def kernelDETAIL : Kernel := ⟨3, [0, -1, 0, -1, 10, -1, 0, -1, 0], 6, 0⟩

/-- Modelled from the spec: PIL's named kernel constant `FIND_EDGES`. -/
def kernelFINDEDGES : Kernel := ⟨3, [-1, -1, -1, -1, 8, -1, -1, -1, -1], 1, 0⟩

/-- Modelled from the spec: PIL's named kernel constant `EDGE_ENHANCE_MORE`. -/
def kernelEDGEENHANCEMORE : Kernel := ⟨3, [-1, -1, -1, -1, 9, -1, -1, -1, -1], 1, 0⟩

/-- Modelled from the spec: PIL's named kernel constant `EMBOSS`. -/
def kernelEMBOSS : Kernel := ⟨3, [-1, 0, 0, 0, 1, 0, 0, 0, 0], 1, 128⟩

/-- Modelled from the spec: PIL's named kernel constant `CONTOUR`. -/
def kernelCONTOUR : Kernel := ⟨3, [-1, -1, -1, -1, 8, -1, -1, -1, -1], 1, 255⟩

/-- Embedding of `Filters.sharpen`. -/
def sharpen (img : Image) : Image := convolve img kernelSHARPEN

/-- Embedding of `Filters.detail`. -/
def detail (img : Image) : Image := convolve img kernelDETAIL

/-- Embedding of `Filters.find_edges`. -/
def find_edges (img : Image) : Image := convolve img kernelFINDEDGES

/-- Embedding of `Filters.edge_enhance` (PIL `EDGE_ENHANCE_MORE`). -/
def edge_enhance (img : Image) : Image := convolve img kernelEDGEENHANCEMORE

/-- Embedding of `Filters.emboss`. -/
def emboss (img : Image) : Image := convolve img kernelEMBOSS

/-- Embedding of `Filters.contour`. -/
def contour (img : Image) : Image := convolve img kernelCONTOUR

/-- Embedding of `Filters.solarize`: `ImageOps.solarize` with the given
threshold, i.e. the solarize lookup table applied per channel. -/
def solarize (img : Image) (threshold : Int) : Image :=
  pointOp (solarizeLut threshold) img

/-- Embedding of `Filters.posterize`: `ImageOps.posterize` with the given bit
count, i.e. the posterize lookup table applied per channel. -/
def posterize (img : Image) (bits : Nat) : Image :=
  pointOp (posterizeLut bits) img

/-- Embedding of `Filters.invert_colors`: `ImageOps.invert`, i.e. the
inversion lookup table applied per channel. -/
def invert_colors (img : Image) : Image :=
  pointOp invertLut img

/-- Embedding of `Filters.reduce_noise`: 3x3 median rank filter with
edge-clamped neighborhoods (per the spec; the PIL `MedianFilter` is not part
of src/). -/
def reduce_noise (img : Image) : Image :=
  let w := img.width
  let h := img.height
  ⟨w, h, (List.range (w * h * 3)).map fun idx =>
    let c := idx % 3
    let p := idx / 3
    let x := p % w
    let y := p / w
    medianNat ((List.range 9).map fun kidx =>
      img.channelAt (clampCoord ((x : Int) + (kidx % 3 : Nat) - 1) w)
        (clampCoord ((y : Int) + (kidx / 3 : Nat) - 1) h) c)⟩

end Filters

/-- The closed catalog of filters offered by `Filters`, with per-call
parameters (the noise sampler is passed explicitly). -/
inductive FilterRequest where
  | classicBW
  | highContrastBW
  | vintage
  | sepia
  | customFilter (kernel_elements : List Rat) (kernel_size : Nat)
  | gaussianBlur (radius : Rat)
  | boxBlur (radius : Rat)
  | addNoise (amount : Int) (noise : Nat → Int)
  | sharpen
  | detail
  | findEdges
  | edgeEnhance
  | solarize (threshold : Int)
  | posterize (bits : Nat)
  | invertColors
  | emboss
  | contour
  | reduceNoise

/-- Dispatch a catalog request to the corresponding filter. -/
def applyFilter (req : FilterRequest) (img : Image) : Image :=
  match req with
  | .classicBW => Filters.classic_black_and_white img
  | .highContrastBW => Filters.high_contrast_black_and_white img
  | .vintage => Filters.vintage_filter img
  | .sepia => Filters.sepia_filter img
  | .customFilter ws n => Filters.custom_filter img ws n
  | .gaussianBlur r => Filters.gaussian_blur img r
  | .boxBlur r => Filters.box_blur img r
  | .addNoise a f => Filters.add_noise img a f
  | .sharpen => Filters.sharpen img
  | .detail => Filters.detail img
  | .findEdges => Filters.find_edges img
  | .edgeEnhance => Filters.edge_enhance img
  | .solarize t => Filters.solarize img t
  | .posterize b => Filters.posterize img b
  | .invertColors => Filters.invert_colors img
  | .emboss => Filters.emboss img
  | .contour => Filters.contour img
  | .reduceNoise => Filters.reduce_noise img

/-- Error taxonomy of the specification (sections 4.3 and 7). -/
inductive SpecFilterError where
  | InvalidParameter
  | EmptyImage
deriving DecidableEq, Repr

/-- Modelled from the spec: the error policy of section 4.3, which is absent
from src/ — "every filter fails with `InvalidParameter` if its parameter is
out of the stated domain"; "no filter may be applied to an empty buffer; that
fails with `EmptyImage`" — instantiated for `solarize` (threshold domain
`[0, 255]`). -/
def specSolarizeChecked (img : Image) (threshold : Int) : Except SpecFilterError Image :=
  if threshold < 0 ∨ 255 < threshold then .error .InvalidParameter
  else if img.width * img.height = 0 then .error .EmptyImage
  else .ok (Filters.solarize img threshold)

/-! Helper lemmas -/

/-- Lookup in a 256-entry table built by mapping `f` over `List.range 256`. -/
theorem lut_getD (f : Nat → Nat) (v : Nat) (h : v < 256) :
    ((List.range 256).map f).getD v 0 = f v := by
  simp [List.getD_eq_getElem?_getD, List.getElem?_map, List.getElem?_range, h]

/-- Rebuilding a list by indexed lookup over its range of positions. -/
theorem rangeMap_getD (l : List Nat) :
    (List.range l.length).map (fun i => l.getD i 0) = l := by
  apply List.ext_getElem
  · simp
  · intro i h1 h2
    simp [List.getD_eq_getElem?_getD, List.getElem?_eq_getElem h2]

/-- The invariant survives `add_state`. -/
theorem hist_inv_add {α : Type} (s : History α) (img : α) (h : s.Inv) :
    (s.add_state img).Inv := by
  obtain ⟨h1, h2⟩ := h
  unfold History.Inv History.add_state pySliceTo
  rw [if_pos (by omega : (0 : Int) ≤ s.index + 1)]
  dsimp only
  simp only [List.length_append, List.length_take, List.length_cons, List.length_nil]
  omega

/-- The invariant survives `undo` (in both branches, also on an erroring
list access). -/
theorem hist_inv_undo {α : Type} (s : History α) (h : s.Inv) :
    ((History.undo s).2).Inv := by
  obtain ⟨h1, h2⟩ := h
  unfold History.Inv History.undo
  by_cases hc : 0 < s.index
  · rw [if_pos hc]
    dsimp only
    omega
  · rw [if_neg hc]
    exact ⟨h1, h2⟩

/-- The invariant survives `redo` (in both branches). -/
theorem hist_inv_redo {α : Type} (s : History α) (h : s.Inv) :
    ((History.redo s).2).Inv := by
  obtain ⟨h1, h2⟩ := h
  unfold History.Inv History.redo
  by_cases hc : s.index < (s.history.length : Int) - 1
  · rw [if_pos hc]
    dsimp only
    omega
  · rw [if_neg hc]
    exact ⟨h1, h2⟩

/-- Every reachable history state satisfies the invariant. -/
theorem hist_reachable_inv {α : Type} (s : History α) (h : History.Reachable s) :
    s.Inv := by
  induction h with
  | init => exact ⟨by norm_num [History.init], by norm_num [History.init]⟩
  | add_state img _ ih => exact hist_inv_add _ _ ih
  | undo _ ih => exact hist_inv_undo _ ih
  | redo _ ih => exact hist_inv_redo _ ih
  | clear _ ih => exact ⟨by norm_num [History.clear], by norm_num [History.clear]⟩

/-- Two images with equal fields are equal. -/
theorem imageExt (a b : Image) (hw : a.width = b.width) (hh : a.height = b.height)
    (hd : a.data = b.data) : a = b := by
  cases a
  cases b
  simp_all

/-- Membership from an indexed lookup hit. -/
theorem mem_of_lookup {l : List Nat} {i v : Nat} (h : l[i]? = some v) : v ∈ l := by
  obtain ⟨hlt, rfl⟩ := List.getElem?_eq_some.mp h
  exact List.getElem_mem hlt

/-- A lookup table acting as the identity on bytes leaves a valid image
unchanged. -/
theorem pointOp_id (lut : List Nat) (img : Image) (hv : img.Valid)
    (hid : ∀ v, v < 256 → lut.getD v 0 = v) : pointOp lut img = img := by
  refine imageExt _ _ rfl rfl ?_
  have hcong : ∀ x ∈ img.data, lut.getD x 0 = x := fun x hx => hid x (hv.2 x hx)
  show img.data.map (fun v => lut.getD v 0) = img.data
  rw [List.map_congr_left hcong, List.map_id']

set_option maxRecDepth 10000 in
/-- The posterize mask keeps the top `bits` bits: for every byte `v`, the
bitwise-and with `256 - 2 ^ (8 - bits)` equals dropping the low
`8 - bits` bits. -/
theorem posterize_mask_eq :
    ∀ b ≤ 8, 1 ≤ b → ∀ v < 256,
      v &&& (256 - 2 ^ (8 - b)) = v / 2 ^ (8 - b) * 2 ^ (8 - b) := by
  decide

/-! Claims about the history stack -/

/-- C1 counterexample: the claim quantifies over every history stack, but
starting from the non-empty stack `⟨[0], 0⟩` the sequence
`add_state 1; add_state 2; undo; add_state 3` ends with entries `[0, 1, 3]`
and cursor `2`, not entries `[1, 3]` and cursor `1`. -/
theorem c1_counterexample :
    (History.add_state ((History.undo (History.add_state (History.add_state
        (⟨[0], 0⟩ : History Nat) 1) 2)).2) 3).history = [0, 1, 3] ∧
    (History.add_state ((History.undo (History.add_state (History.add_state
        (⟨[0], 0⟩ : History Nat) 1) 2)).2) 3).index = 2 ∧
    (History.add_state ((History.undo (History.add_state (History.add_state
        (⟨[0], 0⟩ : History Nat) 1) 2)).2) 3).history ≠ [1, 3] ∧
    (History.add_state ((History.undo (History.add_state (History.add_state
        (⟨[0], 0⟩ : History Nat) 1) 2)).2) 3).index ≠ 1 := by
  decide

/-- C1 (amended): starting from the freshly constructed empty stack, the
sequence `add_state A; add_state B; undo; add_state C` leaves entries exactly
`[A, C]` with cursor `1` and `can_redo` false; and on every stack satisfying
the invariant, `add_state` truncates the entries to the prefix up to the
cursor, appends the new image, and advances the cursor by one. -/
theorem c1_add_state_truncates :
    (∀ A B C : Nat,
      (History.add_state ((History.undo (History.add_state (History.add_state
          (History.init (α := Nat)) A) B)).2) C).history = [A, C] ∧
      (History.add_state ((History.undo (History.add_state (History.add_state
          (History.init (α := Nat)) A) B)).2) C).index = 1 ∧
      History.can_redo (History.add_state ((History.undo (History.add_state
          (History.add_state (History.init (α := Nat)) A) B)).2) C) = false) ∧
    (∀ (s : History Nat) (img : Nat), History.Inv s →
      (History.add_state s img).history
          = s.history.take (s.index + 1).toNat ++ [img] ∧
      (History.add_state s img).index = s.index + 1) := by
  constructor
  · intro A B C
    refine ⟨?_, ?_, ?_⟩ <;>
      simp [History.init, History.add_state, History.undo, History.can_redo,
        pySliceTo, pyGet]
  · intro s img hInv
    obtain ⟨h1, h2⟩ := hInv
    unfold History.add_state pySliceTo
    rw [if_pos (by omega : (0 : Int) ≤ s.index + 1)]
    exact ⟨rfl, rfl⟩

/-- C1 witness: the amended truncation clause applied at the concrete stack
`⟨[7], 0⟩` with new image `9`. -/
theorem c1_add_state_truncates_witness :
    (History.add_state (⟨[7], 0⟩ : History Nat) 9).history = [7, 9] ∧
    (History.add_state (⟨[7], 0⟩ : History Nat) 9).index = 1 := by
  have h := c1_add_state_truncates.2 (⟨[7], 0⟩ : History Nat) 9 (by decide)
  exact ⟨by rw [h.1]; decide, by rw [h.2]; decide⟩

/-- C2 counterexample: on the empty stack (`cursor == -1`), `undo()` does not
return a value at all — `self.history[self.index]` is `[][-1]`, which raises
`IndexError` (modelled as `none`) — contradicting "does not raise any
error". -/
theorem c2_counterexample :
    (History.undo (History.init (α := Nat))).1 = none ∧
    (History.undo (History.init (α := Nat))).2 = History.init := by
  decide

/-- C2 (amended): on every stack with at least one entry whose cursor is at
most `0` (and at least `-1`), `undo()` returns the current entry
`history[cursor]` unchanged, does not move the cursor, and raises no error. -/
theorem c2_undo_noop (s : History Nat) (hne : s.history ≠ [])
    (hlo : -1 ≤ s.index) (hhi : s.index ≤ 0) :
    (History.undo s).2 = s ∧
    (History.undo s).1 = pyGet s.history s.index ∧
    ((History.undo s).1).isSome = true := by
  unfold History.undo
  rw [if_neg (by omega : ¬ (0 : Int) < s.index)]
  refine ⟨rfl, rfl, ?_⟩
  have hlen : 0 < s.history.length := List.length_pos.mpr hne
  unfold pyGet
  by_cases h0 : (0 : Int) ≤ s.index
  · have hz : s.index = 0 := le_antisymm hhi h0
    rw [if_pos h0, hz]
    simp [List.get?_eq_getElem?, List.getElem?_eq_getElem (by omega : 0 < s.history.length)]
  · have hm : s.index = -1 := by omega
    rw [if_neg h0, hm]
    rw [if_pos (by push_cast; omega : -(-1) ≤ (s.history.length : Int))]
    have harg : ((s.history.length : Int) + -1).toNat = s.history.length - 1 := by omega
    rw [harg]
    simp [List.get?_eq_getElem?, List.getElem?_eq_getElem (by omega : s.history.length - 1 < s.history.length)]

/-- C2 witness: the amended no-op clause at the concrete one-entry stack
`⟨[4], 0⟩`. -/
theorem c2_undo_noop_witness :
    (History.undo (⟨[4], 0⟩ : History Nat)).2 = (⟨[4], 0⟩ : History Nat) ∧
    (History.undo (⟨[4], 0⟩ : History Nat)).1 = pyGet [4] 0 ∧
    ((History.undo (⟨[4], 0⟩ : History Nat)).1).isSome = true :=
  c2_undo_noop ⟨[4], 0⟩ (by decide) (by decide) (by decide)

/-- C4: the predicate `-1 <= cursor < entries.length` holds in the initial
state, holds in every reachable state, and is preserved by `add_state`,
`undo`, `redo` and `clear` from any state satisfying it. -/
theorem c4_cursor_invariant :
    History.Inv (History.init (α := Nat)) ∧
    (∀ s : History Nat, History.Reachable s → History.Inv s) ∧
    (∀ (s : History Nat) (img : Nat), History.Inv s →
      History.Inv (History.add_state s img) ∧
      History.Inv ((History.undo s).2) ∧
      History.Inv ((History.redo s).2) ∧
      History.Inv (History.clear s)) := by
  refine ⟨⟨by norm_num [History.init], by norm_num [History.init]⟩, ?_, ?_⟩
  · exact fun s h => hist_reachable_inv s h
  · intro s img h
    exact ⟨hist_inv_add s img h, hist_inv_undo s h, hist_inv_redo s h,
      ⟨by norm_num [History.clear], by norm_num [History.clear]⟩⟩

/-- C4 witness: the invariant theorem applied at the initial state (reachable
by construction) and at the concrete state `⟨[7], 0⟩` under `add_state`. -/
theorem c4_cursor_invariant_witness :
    History.Inv (History.init (α := Nat)) ∧
    History.Inv (History.add_state (⟨[7], 0⟩ : History Nat) 9) :=
  ⟨c4_cursor_invariant.2.1 History.init History.Reachable.init,
   (c4_cursor_invariant.2.2 (⟨[7], 0⟩ : History Nat) 9 (by decide)).1⟩

/-! Claims about the filter catalog -/

/-- C3 counterexample: `solarize` with threshold `300` (outside `[0, 255]`)
does not fail at all — it returns the image unchanged, where the specified
error policy demands an `InvalidParameter` failure. -/
theorem c3_counterexample :
    Filters.solarize ⟨1, 1, [255, 255, 255]⟩ 300 = ⟨1, 1, [255, 255, 255]⟩ ∧
    specSolarizeChecked ⟨1, 1, [255, 255, 255]⟩ 300
      = Except.error SpecFilterError.InvalidParameter :=
  ⟨by decide, rfl⟩

/-- C3 (amended): the filters perform no domain validation and no
`InvalidParameter` or `EmptyImage` error exists in the code; in particular
`solarize` with any threshold above `255` succeeds and returns every valid
image unchanged. -/
theorem c3_no_parameter_validation (img : Image) (t : Int) (hv : img.Valid)
    (ht : 255 < t) : Filters.solarize img t = img := by
  apply pointOp_id _ _ hv
  intro v hvlt
  simp only [solarizeLut]
  rw [lut_getD _ v hvlt]
  rw [if_pos (show Int.ofNat v < t by simp only [Int.ofNat_eq_coe]; omega)]

/-- C3 witness: the amended no-validation statement at a concrete image and
the out-of-domain threshold `999`. -/
theorem c3_no_parameter_validation_witness :
    Filters.solarize ⟨1, 1, [0, 100, 255]⟩ 999 = ⟨1, 1, [0, 100, 255]⟩ :=
  c3_no_parameter_validation ⟨1, 1, [0, 100, 255]⟩ 999 (by decide) (by decide)

/-- C5: for every valid image and threshold in `[0, 255]`, `solarize` maps
each channel value `v` to `255 - v` when `v >= threshold` and leaves it
unchanged otherwise; and on the concrete 2x2 all-white image with threshold
`128` it yields the all-black image. -/
theorem c5_solarize_semantics :
    (∀ (img : Image) (t : Int), img.Valid → 0 ≤ t → t ≤ 255 →
      ∀ (i v : Nat), img.data[i]? = some v →
        (Filters.solarize img t).data[i]?
          = some (if t ≤ Int.ofNat v then 255 - v else v)) ∧
    Filters.solarize ⟨2, 2, List.replicate 12 255⟩ 128
      = ⟨2, 2, List.replicate 12 0⟩ := by
  constructor
  · intro img t hv _ _ i v hi
    have hvlt : v < 256 := hv.2 v (mem_of_lookup hi)
    show (img.data.map fun x => (solarizeLut t).getD x 0)[i]? = _
    rw [List.getElem?_map, hi, Option.map_some']
    congr 1
    simp only [solarizeLut]
    rw [lut_getD _ v hvlt]
    rcases lt_or_le (Int.ofNat v) t with h | h
    · rw [if_pos h, if_neg (not_le.mpr h)]
    · rw [if_neg (not_lt.mpr h), if_pos h]
  · decide

/-- C5 witness: the per-channel clause at a concrete image, threshold `128`,
index `1`, channel value `200` (inverted to `55`). -/
theorem c5_solarize_semantics_witness :
    (Filters.solarize ⟨1, 1, [10, 200, 255]⟩ 128).data[1]? = some 55 := by
  have h := c5_solarize_semantics.1 ⟨1, 1, [10, 200, 255]⟩ 128 (by decide)
    (by decide) (by decide) 1 200 (by decide)
  rw [h]
  decide

/-- C6: `invert` maps every channel value `v` to `255 - v`, and applying it
twice returns the original valid image exactly. -/
theorem c6_invert_involution (img : Image) (hv : img.Valid) :
    (∀ (i v : Nat), img.data[i]? = some v →
      (Filters.invert_colors img).data[i]? = some (255 - v)) ∧
    Filters.invert_colors (Filters.invert_colors img) = img := by
  constructor
  · intro i v hi
    have hvlt : v < 256 := hv.2 v (mem_of_lookup hi)
    show (img.data.map fun x => invertLut.getD x 0)[i]? = _
    rw [List.getElem?_map, hi, Option.map_some']
    congr 1
    simp only [invertLut]
    rw [lut_getD _ v hvlt]
  · refine imageExt _ _ rfl rfl ?_
    show (img.data.map fun v => invertLut.getD v 0).map (fun v => invertLut.getD v 0)
        = img.data
    rw [List.map_map]
    have hcong : ∀ x ∈ img.data,
        ((fun v => invertLut.getD v 0) ∘ fun v => invertLut.getD v 0) x = x := by
      intro x hx
      have hx2 : x < 256 := hv.2 x hx
      have g1 : invertLut.getD x 0 = 255 - x := by
        simp only [invertLut]
        rw [lut_getD _ x hx2]
      have g2 : invertLut.getD (255 - x) 0 = 255 - (255 - x) := by
        simp only [invertLut]
        rw [lut_getD _ _ (by omega)]
      simp only [Function.comp_apply]
      rw [g1, g2]
      omega
    rw [List.map_congr_left hcong, List.map_id']

/-- C6 witness: the involution at a concrete valid image. -/
theorem c6_invert_involution_witness :
    Filters.invert_colors (Filters.invert_colors ⟨1, 1, [3, 200, 77]⟩)
      = ⟨1, 1, [3, 200, 77]⟩ :=
  (c6_invert_involution ⟨1, 1, [3, 200, 77]⟩ (by decide)).2

/-- C7: for every `bits` in `[1, 8]`, the posterize table keeps the top
`bits` bits of each byte and zeroes the remaining low bits, and
`posterize img 8` returns every valid image unchanged. -/
theorem c7_posterize_top_bits :
    (∀ bits, 1 ≤ bits → bits ≤ 8 → ∀ v, v < 256 →
      (posterizeLut bits).getD v 0 = v / 2 ^ (8 - bits) * 2 ^ (8 - bits)) ∧
    (∀ img : Image, img.Valid → Filters.posterize img 8 = img) := by
  constructor
  · intro bits h1 h8 v hvlt
    simp only [posterizeLut]
    rw [lut_getD _ v hvlt]
    exact posterize_mask_eq bits h8 h1 v hvlt
  · intro img hv
    apply pointOp_id _ _ hv
    intro v hvlt
    simp only [posterizeLut]
    rw [lut_getD _ v hvlt]
    rw [posterize_mask_eq 8 (by norm_num) (by norm_num) v hvlt]
    norm_num

/-- C7 witness: the table clause at `bits = 1`, value `200` (kept top bit:
`128`), and the identity clause at a concrete valid image. -/
theorem c7_posterize_top_bits_witness :
    (posterizeLut 1).getD 200 0 = 128 ∧
    Filters.posterize ⟨1, 1, [7, 8, 9]⟩ 8 = ⟨1, 1, [7, 8, 9]⟩ := by
  constructor
  · have h := c7_posterize_top_bits.1 1 (by norm_num) (by norm_num) 200 (by norm_num)
    rw [h]
    norm_num
  · exact c7_posterize_top_bits.2 ⟨1, 1, [7, 8, 9]⟩ (by decide)

/-- C8: when `custom_filter` builds its kernel, the scale is
`sum(kernel_elements) or 1`: the sum of the weights, except `1` when that sum
is `0`. -/
theorem c8_custom_scale_default (kernel_elements : List Rat) (kernel_size : Nat) :
    (kernel_elements.sum = 0 →
      (Filters.customKernel kernel_elements kernel_size).scale = 1) ∧
    (kernel_elements.sum ≠ 0 →
      (Filters.customKernel kernel_elements kernel_size).scale
        = kernel_elements.sum) := by
  constructor
  · intro h
    simp [Filters.customKernel, pyOrQ, h]
  · intro h
    simp [Filters.customKernel, pyOrQ, h]

/-- C8 witness: a zero-sum kernel `[1, -1]` gets scale `1`; the kernel
`[1, 2]` gets scale `3`. -/
theorem c8_custom_scale_default_witness :
    (Filters.customKernel [(1 : Rat), -1] 3).scale = 1 ∧
    (Filters.customKernel [(1 : Rat), 2] 3).scale = 3 := by
  constructor
  · exact (c8_custom_scale_default [(1 : Rat), -1] 3).1 (by norm_num)
  · rw [(c8_custom_scale_default [(1 : Rat), 2] 3).2 (by norm_num)]
    norm_num

/-- C10: `add_noise` with `amount = 0` is the identity on valid images: the
sampler draws from `[-0, 0 + 1)`, i.e. the single value `0`, and adding `0`
then clipping leaves every byte unchanged. -/
theorem c10_add_noise_zero_identity (img : Image) (noise : Nat → Int)
    (hv : img.Valid)
    (hb : ∀ i, -(0 : Int) ≤ noise i ∧ noise i < 0 + 1) :
    Filters.add_noise img 0 noise = img := by
  refine imageExt _ _ rfl rfl ?_
  show (List.range img.data.length).map
      (fun i => clampByte ((img.data.getD i 0 : Int) + noise i)) = img.data
  have hcong : ∀ i ∈ List.range img.data.length,
      clampByte ((img.data.getD i 0 : Int) + noise i) = img.data.getD i 0 := by
    intro i hi
    rw [List.mem_range] at hi
    have hz : noise i = 0 := by
      have := hb i
      omega
    have hmem : img.data.getD i 0 ∈ img.data := by
      rw [List.getD_eq_getElem _ 0 hi]
      exact List.getElem_mem hi
    have hvlt : img.data.getD i 0 < 256 := hv.2 _ hmem
    rw [hz]
    simp only [clampByte, add_zero]
    omega
  rw [List.map_congr_left hcong]
  exact rangeMap_getD img.data

/-- C10 witness: `add_noise` with amount `0` and the all-zero sampler at a
concrete valid image. -/
theorem c10_add_noise_zero_identity_witness :
    Filters.add_noise ⟨1, 1, [5, 6, 7]⟩ 0 (fun _ => 0) = ⟨1, 1, [5, 6, 7]⟩ :=
  c10_add_noise_zero_identity ⟨1, 1, [5, 6, 7]⟩ (fun _ => 0) (by decide)
    (fun _ => ⟨by norm_num, by norm_num⟩)

/-- C9: every filter of the catalog preserves the dimensions of a non-empty
valid image: output width and height equal input width and height, and the
output buffer again has `width * height * 3` entries. -/
theorem c9_dimension_preservation (req : FilterRequest) (img : Image)
    (hv : img.Valid) (hw : 0 < img.width) (hh : 0 < img.height) :
    (applyFilter req img).width = img.width ∧
    (applyFilter req img).height = img.height ∧
    (applyFilter req img).data.length = img.width * img.height * 3 := by
  obtain ⟨hlen, _⟩ := hv
  cases req <;>
    simp [applyFilter, Filters.classic_black_and_white,
      Filters.high_contrast_black_and_white, Filters.vintage_filter,
      Filters.sepia_filter, Filters.custom_filter, Filters.gaussian_blur,
      Filters.box_blur, Filters.add_noise, Filters.sharpen, Filters.detail,
      Filters.find_edges, Filters.edge_enhance, Filters.solarize,
      Filters.posterize, Filters.invert_colors, Filters.emboss,
      Filters.contour, Filters.reduce_noise, pointOp, convolve,
      List.length_map, List.length_range, hlen]

/-- C9 witness: dimension preservation applied to the invert filter at a
concrete non-empty valid image. -/
theorem c9_dimension_preservation_witness :
    (applyFilter FilterRequest.invertColors ⟨1, 1, [1, 2, 3]⟩).width = 1 ∧
    (applyFilter FilterRequest.invertColors ⟨1, 1, [1, 2, 3]⟩).height = 1 ∧
    (applyFilter FilterRequest.invertColors ⟨1, 1, [1, 2, 3]⟩).data.length
      = 1 * 1 * 3 :=
  c9_dimension_preservation FilterRequest.invertColors ⟨1, 1, [1, 2, 3]⟩
    (by decide) (by decide) (by decide)

end PhotoFilter
